import Mathlib

set_option maxRecDepth 40000
set_option maxHeartbeats 1000000

/-!
Verification development for the OpenClaw WhatsApp Cloud API channel plugin.

The definitions below are a shallow embedding of the plugin's core:

* `src/crypto.ts`   — webhook signature verification (HMAC-SHA256, hex,
  timing-safe comparison).  Byte strings are modelled as `List Nat` where
  every element is a byte value.
* `src/webhook.ts`  — the HTTP webhook server: GET challenge verification,
  POST ingestion, payload normalization (`extractMessageContent`),
  allow-list access control (`processMessage`), phone normalization.
* `src/api.ts`      — the outbound client: `splitMessage` chunking and the
  sequential send loop of `sendText`.

JavaScript strings used only for equality/containment are modelled as Lean
`String`; raw HTTP bodies, signature headers and secrets (which the source
converts to `Buffer`s) are modelled as byte lists.  The HMAC-SHA256 used via
`node:crypto` is implemented concretely (FIPS 180-4 / RFC 2104) so that all
definitions are executable.
-/

/-! ## SHA-256 (FIPS 180-4), over byte lists -/

/-- Addition modulo 2^32. -/
def add32 (a b : Nat) : Nat := (a + b) % 4294967296

/-- Right rotation of a 32-bit word. -/
def rotr32 (n x : Nat) : Nat := (x >>> n) ||| ((x <<< (32 - n)) % 4294967296)

def shaCh (x y z : Nat) : Nat := (x &&& y) ^^^ ((x ^^^ 4294967295) &&& z)

def shaMaj (x y z : Nat) : Nat := (x &&& y) ^^^ (x &&& z) ^^^ (y &&& z)

def bsig0 (x : Nat) : Nat := rotr32 2 x ^^^ rotr32 13 x ^^^ rotr32 22 x

def bsig1 (x : Nat) : Nat := rotr32 6 x ^^^ rotr32 11 x ^^^ rotr32 25 x

def ssig0 (x : Nat) : Nat := rotr32 7 x ^^^ rotr32 18 x ^^^ (x >>> 3)

def ssig1 (x : Nat) : Nat := rotr32 17 x ^^^ rotr32 19 x ^^^ (x >>> 10)

/-- The 64 SHA-256 round constants (FIPS 180-4 section 4.2.2), in decimal. -/
def shaK : List Nat :=
  [1116352408, 1899447441, 3049323471, 3921009573, 961987163, 1508970993,
   2453635748, 2870763221, 3624381080, 310598401, 607225278, 1426881987,
   1925078388, 2162078206, 2614888103, 3248222580, 3835390401, 4022224774,
   264347078, 604807628, 770255983, 1249150122, 1555081692, 1996064986,
   2554220882, 2821834349, 2952996808, 3210313671, 3336571891, 3584528711,
   113926993, 338241895, 666307205, 773529912, 1294757372, 1396182291,
   1695183700, 1986661051, 2177026350, 2456956037, 2730485921, 2820302411,
   3259730800, 3345764771, 3516065817, 3600352804, 4094571909, 275423344,
   430227734, 506948616, 659060556, 883997877, 958139571, 1322822218,
   1537002063, 1747873779, 1955562222, 2024104815, 2227730452, 2361852424,
   2428436474, 2756734187, 3204031479, 3329325298]

/-- The eight working variables of the compression function. -/
structure Hash8 where
  a : Nat
  b : Nat
  c : Nat
  d : Nat
  e : Nat
  f : Nat
  g : Nat
  h : Nat
deriving DecidableEq

def initHash : Hash8 :=
  ⟨1779033703, 3144134277, 1013904242, 2773480762,
   1359893119, 2600822924, 528734635, 1541459225⟩

/-- Big-endian 32-bit word from four bytes. -/
def bytesToWord (b0 b1 b2 b3 : Nat) : Nat :=
  b0 * 16777216 + b1 * 65536 + b2 * 256 + b3

/-- Group a 64-byte block into sixteen big-endian words. -/
def blockWords : List Nat → List Nat
  | b0 :: b1 :: b2 :: b3 :: rest => bytesToWord b0 b1 b2 b3 :: blockWords rest
  | _ => []

/-- Extend sixteen schedule words to sixty-four. -/
def msgSchedule (w16 : List Nat) : List Nat :=
  let arr := (List.range 48).foldl
    (fun w _ =>
      w.push (add32
        (add32 (ssig1 (w.getD (w.size - 2) 0)) (w.getD (w.size - 7) 0))
        (add32 (ssig0 (w.getD (w.size - 15) 0)) (w.getD (w.size - 16) 0))))
    w16.toArray
  arr.toList

def sha256Round (s : Hash8) (kw : Nat × Nat) : Hash8 :=
  let t1 := add32 s.h (add32 (bsig1 s.e) (add32 (shaCh s.e s.f s.g) (add32 kw.1 kw.2)))
  let t2 := add32 (bsig0 s.a) (shaMaj s.a s.b s.c)
  ⟨add32 t1 t2, s.a, s.b, s.c, add32 s.d t1, s.e, s.f, s.g⟩

def compressBlock (s : Hash8) (block : List Nat) : Hash8 :=
  let w := msgSchedule (blockWords block)
  let t := (List.zip shaK w).foldl sha256Round s
  ⟨add32 s.a t.a, add32 s.b t.b, add32 s.c t.c, add32 s.d t.d,
   add32 s.e t.e, add32 s.f t.f, add32 s.g t.g, add32 s.h t.h⟩

/-- Message bit length as eight big-endian bytes. -/
def lenBytes64 (n : Nat) : List Nat :=
  [(n >>> 56) % 256, (n >>> 48) % 256, (n >>> 40) % 256, (n >>> 32) % 256,
   (n >>> 24) % 256, (n >>> 16) % 256, (n >>> 8) % 256, n % 256]

/-- SHA-256 padding: 0x80, zeros, then the 64-bit message bit length. -/
def shaPad (msg : List Nat) : List Nat :=
  let L := msg.length
  msg ++ 128 :: List.replicate ((119 - L % 64) % 64) 0 ++ lenBytes64 (8 * L)

/-- Structural worker for `toBlocks`: the fuel bounds the number of blocks;
`l.length` is always enough since every step drops 64 bytes. -/
def toBlocksGo : Nat → List Nat → List (List Nat)
  | 0, _ => []
  | n + 1, l => if l.isEmpty then [] else l.take 64 :: toBlocksGo n (l.drop 64)

/-- Split a padded message into 64-byte blocks. -/
def toBlocks (l : List Nat) : List (List Nat) := toBlocksGo (l.length + 1) l

/-- Big-endian bytes of a 32-bit word. -/
def wordBytes (n : Nat) : List Nat :=
  [(n >>> 24) % 256, (n >>> 16) % 256, (n >>> 8) % 256, n % 256]

def hashBytes (s : Hash8) : List Nat :=
  wordBytes s.a ++ wordBytes s.b ++ wordBytes s.c ++ wordBytes s.d ++
  wordBytes s.e ++ wordBytes s.f ++ wordBytes s.g ++ wordBytes s.h

/-- SHA-256 of a byte list. -/
def sha256 (msg : List Nat) : List Nat :=
  hashBytes ((toBlocks (shaPad msg)).foldl compressBlock initHash)

/-! ## HMAC-SHA256 (RFC 2104) -/

def hmacSha256 (key msg : List Nat) : List Nat :=
  let k0 := if 64 < key.length then sha256 key else key
  let k := k0 ++ List.replicate (64 - k0.length) 0
  sha256 ((k.map (· ^^^ 0x5c)) ++ sha256 ((k.map (· ^^^ 0x36)) ++ msg))

/-! ## Lowercase hex encoding (`digest("hex")`) -/

/-- ASCII code of the lowercase hex digit for a value below 16. -/
def hexDigit (n : Nat) : Nat := if n < 10 then 48 + n else 87 + n

/-- Two lowercase hex digits per byte, as ASCII byte values. -/
def hexBytes : List Nat → List Nat
  | [] => []
  | b :: rest => hexDigit (b / 16) :: hexDigit (b % 16) :: hexBytes rest

/-- The ASCII bytes of the literal "sha256=". -/
def sha256Tag : List Nat := [115, 104, 97, 50, 53, 54, 61]

/-- The expected header value computed by `verifyWebhookSignature` from
`src/crypto.ts` (also the `sign` helper of `src/__tests__/crypto.test.ts`):
byte content of `"sha256=" + createHmac("sha256", secret).update(body).digest("hex")`. -/
def signWebhook (body secret : List Nat) : List Nat :=
  sha256Tag ++ hexBytes (hmacSha256 secret body)

/-! ## `timingSafeEqual` and `verifyWebhookSignature` (src/crypto.ts) -/

/-- Constant-time comparison of two equal-length byte lists, as
`crypto.timingSafeEqual`: OR together the XOR of every byte pair and test the
accumulator against zero, so the work done is independent of the position of
the first mismatch.  The source only calls it after checking the lengths are
equal (node throws otherwise). -/
def timingSafeEqual (a b : List Nat) : Bool :=
  ((List.zip a b).foldl (fun acc p => acc ||| (p.1 ^^^ p.2)) 0) == 0

/-- Embedding of `verifyWebhookSignature(rawBody, signatureHeader, appSecret)`
from `src/crypto.ts`.  `rawBody` and `appSecret` are the byte contents of the
JavaScript strings; `signatureHeader` is `none` for an absent header.  The
JavaScript guard `if (!signatureHeader || !appSecret) return false` treats the
empty string as falsy, hence the emptiness tests.  `Buffer.from` on a string
never throws, so the try/catch of the source has no other effect. -/
def verifyWebhookSignature (rawBody : List Nat) (signatureHeader : Option (List Nat))
    (appSecret : List Nat) : Bool :=
  match signatureHeader with
  | none => false
  | some sig =>
    if sig.isEmpty || appSecret.isEmpty then false
    else
      let expected := signWebhook rawBody appSecret
      if sig.length ≠ expected.length then false
      else timingSafeEqual sig expected

/-! ## Webhook payload model (src/types.ts)

Fields the source reads through optional chaining (`?.`) or nullish
coalescing (`??`) are modelled as `Option`; fields the schema marks required
are plain.  The TypeScript keyword-clashing field `from` is rendered `from_`.
Location coordinates (IEEE floats in JavaScript) are modelled as `Int`: no
claim depends on their numeric formatting, only on the surrounding text. -/

structure TextBody where
  body : Option String
deriving DecidableEq

structure MediaObject where
  id : String
  mime_type : String
  sha256 : Option String := none
  caption : Option String := none
deriving DecidableEq

structure DocumentObject where
  id : String
  mime_type : String
  sha256 : Option String := none
  caption : Option String := none
  filename : Option String := none
deriving DecidableEq

structure LocationObject where
  latitude : Int
  longitude : Int
  name : Option String := none
  address : Option String := none
deriving DecidableEq

structure ContactName where
  formatted_name : String
deriving DecidableEq

structure ContactEntry where
  name : ContactName
deriving DecidableEq

structure ReplyObject where
  id : String
  title : String
  description : Option String := none
deriving DecidableEq

structure InteractiveObject where
  type : String
  button_reply : Option ReplyObject := none
  list_reply : Option ReplyObject := none
deriving DecidableEq

structure ButtonObject where
  text : String
  payload : String
deriving DecidableEq

structure ContextObject where
  from_ : String
  id : String
deriving DecidableEq

structure WAMessage where
  from_ : String
  id : String
  timestamp : String
  type : String
  text : Option TextBody := none
  image : Option MediaObject := none
  audio : Option MediaObject := none
  video : Option MediaObject := none
  document : Option DocumentObject := none
  sticker : Option MediaObject := none
  location : Option LocationObject := none
  contacts : Option (List ContactEntry) := none
  interactive : Option InteractiveObject := none
  button : Option ButtonObject := none
  context : Option ContextObject := none
deriving DecidableEq

structure WebhookContactProfile where
  name : Option String
deriving DecidableEq

structure WebhookContact where
  profile : Option WebhookContactProfile
  wa_id : String
deriving DecidableEq

structure MessageStatus where
  id : String
  status : String
  timestamp : String
  recipient_id : String
deriving DecidableEq

structure WebhookValue where
  contacts : Option (List WebhookContact) := none
  messages : Option (List WAMessage) := none
  statuses : Option (List MessageStatus) := none
deriving DecidableEq

structure WebhookChange where
  value : WebhookValue
  field : String
deriving DecidableEq

structure WebhookEntry where
  id : String
  changes : List WebhookChange
deriving DecidableEq

structure WebhookPayload where
  object : String
  entry : List WebhookEntry
deriving DecidableEq

/-- The `media` part of `ParsedInboundMessage` (src/webhook.ts). -/
structure ParsedMedia where
  id : String
  mimeType : String
  caption : Option String := none
  filename : Option String := none
deriving DecidableEq

/-- The `interactiveReply` part of `ParsedInboundMessage` (src/webhook.ts). -/
structure ParsedInteractiveReply where
  id : String
  title : String
  type : String
deriving DecidableEq

/-- Canonical inbound message handed to the dispatcher callback
(src/webhook.ts `ParsedInboundMessage`). -/
structure ParsedInboundMessage where
  from_ : String
  senderName : String
  text : String
  messageId : String
  timestamp : String
  type : String
  media : Option ParsedMedia
  interactiveReply : Option ParsedInteractiveReply
  quotedMessageId : Option String
deriving DecidableEq

/-- Result of `extractMessageContent` (src/webhook.ts `ExtractedContent`). -/
structure ExtractedContent where
  text : String
  media : Option ParsedMedia := none
  interactiveReply : Option ParsedInteractiveReply := none
deriving DecidableEq

/-- Plugin configuration, restricted to the fields the embedded functions
read.  `appSecret` is kept as the byte content of the configured string,
matching the byte-level signature checker. -/
structure WhatsAppCloudConfig where
  appSecret : List Nat
  verifyToken : String
  dmPolicy : String
  allowFrom : List String
  sendReadReceipts : Bool
deriving DecidableEq

/-! ## Content extraction and message processing (src/webhook.ts) -/

/-- Whitespace trimmed by JavaScript `trim` / `trimStart` / `trimEnd`
(restricted to the ASCII white-space characters; the Unicode spaces also
trimmed by JavaScript never occur in the placeholder texts involved). -/
def isJsSpace (c : Char) : Bool :=
  c = ' ' || c = '\t' || c = '\n' || c = '\r' || c = '\x0b' || c = '\x0c'

def trimStartL (l : List Char) : List Char := l.dropWhile isJsSpace

def trimEndL (l : List Char) : List Char := (l.reverse.dropWhile isJsSpace).reverse

/-- JavaScript `String.prototype.trim`. -/
def jsTrim (s : String) : String := ⟨trimEndL (trimStartL s.toList)⟩

/-- The `case "interactive"` branch of `extractMessageContent`: two guarded
checks (`reply?.type === "button_reply" && reply.button_reply`, then the
`list_reply` analogue), falling through to a placeholder. -/
def interactiveContent (reply : Option InteractiveObject) : ExtractedContent :=
  match reply with
  | none => ⟨"[Interactive message]", none, none⟩
  | some r =>
    if r.type = "button_reply" then
      match r.button_reply with
      | some br => ⟨br.title, none, some ⟨br.id, br.title, "button_reply"⟩⟩
      | none => ⟨"[Interactive message]", none, none⟩
    else if r.type = "list_reply" then
      match r.list_reply with
      | some lr => ⟨lr.title, none, some ⟨lr.id, lr.title, "list_reply"⟩⟩
      | none => ⟨"[Interactive message]", none, none⟩
    else ⟨"[Interactive message]", none, none⟩

/-- Embedding of `extractMessageContent` (src/webhook.ts).  The JavaScript
`switch` on `msg.type` becomes a chain of string comparisons; `a ?? b`
becomes `Option.getD`. -/
def extractMessageContent (msg : WAMessage) : ExtractedContent :=
  if msg.type = "text" then
    ⟨(msg.text.bind (·.body)).getD "", none, none⟩
  else if msg.type = "image" then
    ⟨(msg.image.bind (·.caption)).getD "[📷 Image]",
     msg.image.map (fun i => ⟨i.id, i.mime_type, i.caption, none⟩), none⟩
  else if msg.type = "audio" then
    ⟨"[🎵 Audio message]",
     msg.audio.map (fun a => ⟨a.id, a.mime_type, none, none⟩), none⟩
  else if msg.type = "video" then
    ⟨(msg.video.bind (·.caption)).getD "[🎬 Video]",
     msg.video.map (fun v => ⟨v.id, v.mime_type, v.caption, none⟩), none⟩
  else if msg.type = "document" then
    ⟨(msg.document.bind (·.caption)).getD
        ("[📄 Document: " ++ ((msg.document.bind (·.filename)).getD "file") ++ "]"),
     msg.document.map (fun d => ⟨d.id, d.mime_type, d.caption, d.filename⟩), none⟩
  else if msg.type = "sticker" then
    ⟨"[Sticker]",
     msg.sticker.map (fun s => ⟨s.id, s.mime_type, none, none⟩), none⟩
  else if msg.type = "location" then
    ⟨match msg.location with
      | some loc => jsTrim ("[📍 Location: " ++ loc.name.getD "" ++ " " ++
          (loc.address.getD (toString loc.latitude ++ "," ++ toString loc.longitude)) ++ "]")
      | none => "[📍 Location]", none, none⟩
  else if msg.type = "contacts" then
    ⟨match msg.contacts with
      | some cs =>
          "[Contact: " ++ String.intercalate ", " (cs.map (·.name.formatted_name)) ++ "]"
      | none => "[Contact]", none, none⟩
  else if msg.type = "interactive" then
    interactiveContent msg.interactive
  else if msg.type = "button" then
    ⟨(msg.button.map (·.text)).getD "[Button]", none, none⟩
  else
    ⟨"[" ++ msg.type ++ " message — not yet supported]", none, none⟩

/-- Embedding of `normalizePhone` (src/webhook.ts):
`phone.replace(/[^0-9]/g, "")`. -/
def normalizePhone (phone : String) : String := ⟨phone.toList.filter Char.isDigit⟩

/-- The access-control gate inlined at the top of `processMessage`
(src/webhook.ts): under `"allowlist"` policy the sender is admitted exactly
when some allow-list entry normalizes to the sender's normalized id; any
other policy admits everyone. -/
def isAllowed (senderId : String) (config : WhatsAppCloudConfig) : Bool :=
  if config.dmPolicy == "allowlist" then
    config.allowFrom.any (fun n => normalizePhone n == normalizePhone senderId)
  else true

/-- Embedding of `processMessage` (src/webhook.ts), returning the message
handed to the dispatcher callback, or `none` when the sender is blocked.
The fire-and-forget `markAsRead` side call carries no data and is omitted. -/
def processMessage (msg : WAMessage) (contacts : List WebhookContact)
    (config : WhatsAppCloudConfig) : Option ParsedInboundMessage :=
  if isAllowed msg.from_ config then
    let contact := contacts.find? (fun c => c.wa_id == msg.from_)
    let senderName := ((contact.bind (·.profile)).bind (·.name)).getD msg.from_
    let parsed := extractMessageContent msg
    some ⟨msg.from_, senderName, parsed.text, msg.id, msg.timestamp, msg.type,
          parsed.media, parsed.interactiveReply, msg.context.map (·.id)⟩
  else none

/-- Arguments of one `onStatus` callback invocation. -/
structure StatusEvent where
  messageId : String
  status : String
  recipientId : String
deriving DecidableEq

/-- Per-change processing from the loop body of `handleIncoming`
(src/webhook.ts): only changes whose `field` is `"messages"` contribute. -/
def processChange (config : WhatsAppCloudConfig) (ch : WebhookChange) :
    List StatusEvent × List ParsedInboundMessage :=
  if ch.field == "messages" then
    (match ch.value.statuses with
      | some l => l.map (fun s => ⟨s.id, s.status, s.recipient_id⟩)
      | none => [],
     match ch.value.messages with
      | some l => l.filterMap (fun m => processMessage m (ch.value.contacts.getD []) config)
      | none => [])
  else ([], [])

/-- The nested entry/change loops of `handleIncoming`, together with the
top-level `object` discriminator check. -/
def processPayload (config : WhatsAppCloudConfig) (p : WebhookPayload) :
    List StatusEvent × List ParsedInboundMessage :=
  if p.object == "whatsapp_business_account" then
    let results := (p.entry.map (·.changes)).flatten.map (processChange config)
    ((results.map (·.1)).flatten, (results.map (·.2)).flatten)
  else ([], [])

structure HttpResponse where
  status : Nat
  body : String
deriving DecidableEq

/-- Embedding of `handleIncoming` (src/webhook.ts) for a POST on the webhook
path.  `parse` stands for `JSON.parse` (`none` = parse failure); the result
pairs the HTTP response — written before any verification or parsing — with
the status events and dispatcher invocations the request produces. -/
def handleIncoming (parse : List Nat → Option WebhookPayload)
    (config : WhatsAppCloudConfig) (signature : Option (List Nat))
    (rawBody : List Nat) : HttpResponse × List StatusEvent × List ParsedInboundMessage :=
  let response : HttpResponse := ⟨200, "OK"⟩
  let events :=
    if ¬ config.appSecret.isEmpty ∧ ¬ verifyWebhookSignature rawBody signature config.appSecret
    then ([], [])
    else
      match parse rawBody with
      | none => ([], [])
      | some payload => processPayload config payload
  (response, events)

/-- Embedding of `handleVerification` (src/webhook.ts) for a GET on the
webhook path.  Query parameters are `none` when absent (`searchParams.get`
returns `null`); the JavaScript truthiness test on `challenge` also rejects a
present-but-empty value. -/
def handleVerification (mode token challenge : Option String)
    (config : WhatsAppCloudConfig) : HttpResponse :=
  if mode == some "subscribe" && token == some config.verifyToken
      && !(challenge.getD "" == "") then
    ⟨200, challenge.getD ""⟩
  else
    ⟨403, "Forbidden"⟩

/-! ## Outbound client (src/api.ts)

Message text is modelled as `List Char`; `text.length`, `lastIndexOf`,
`slice`, `trimStart` and `trimEnd` of JavaScript strings become the
corresponding list operations. -/

/-- Largest index `j ≤ i` with `l[j] = c`, scanning downward. -/
def lastIdxAux (c : Char) (l : List Char) : Nat → Option Nat
  | 0 => if l[0]? = some c then some 0 else none
  | i + 1 => if l[i + 1]? = some c then some (i + 1) else lastIdxAux c l i

/-- JavaScript `str.lastIndexOf(c, fromIdx)`: the largest index `≤ fromIdx`
holding `c`, or `-1`. -/
def jsLastIndexOf (c : Char) (l : List Char) (fromIdx : Nat) : Int :=
  match lastIdxAux c l fromIdx with
  | some i => (i : Int)
  | none => -1

/-- The split-point search of one `splitMessage` loop iteration: last newline
at or before the limit, else last space, else a hard split at the limit.
The source compares against `maxLength * 0.5` and `maxLength * 0.3`
(floating-point); the integer comparisons below agree with those float
comparisons at the single call site `maxLength = 4096` (2048 and 1228.8). -/
def splitIndexFor (maxLength : Nat) (remaining : List Char) : Nat :=
  let si0 : Int := jsLastIndexOf '\n' remaining maxLength
  let si1 : Int := if 2 * si0 < (maxLength : Int) then jsLastIndexOf ' ' remaining maxLength else si0
  let si2 : Int := if 10 * si1 < 3 * (maxLength : Int) then (maxLength : Int) else si1
  si2.toNat

theorem splitIndexFor_pos (maxLength : Nat) (hpos : 0 < maxLength)
    (remaining : List Char) : 0 < splitIndexFor maxLength remaining := by
  simp only [splitIndexFor]
  split <;> split <;> omega

theorem lastIdxAux_le (c : Char) (l : List Char) :
    ∀ i j, lastIdxAux c l i = some j → j ≤ i := by
  intro i
  induction i with
  | zero => intro j h; unfold lastIdxAux at h; split at h <;> simp_all
  | succ i ih =>
    intro j h
    unfold lastIdxAux at h
    split at h
    · simp_all
    · exact Nat.le_succ_of_le (ih j h)

theorem jsLastIndexOf_le (c : Char) (l : List Char) (fromIdx : Nat) :
    jsLastIndexOf c l fromIdx ≤ (fromIdx : Int) := by
  unfold jsLastIndexOf
  split
  · rename_i i h
    exact_mod_cast lastIdxAux_le c l fromIdx i h
  · omega

theorem splitIndexFor_le (maxLength : Nat) (remaining : List Char) :
    splitIndexFor maxLength remaining ≤ maxLength := by
  simp only [splitIndexFor]
  have h0 := jsLastIndexOf_le '\n' remaining maxLength
  have h1 := jsLastIndexOf_le ' ' remaining maxLength
  split <;> split <;> omega

/-- The `while (remaining.length > maxLength)` loop of `splitMessage`
(src/api.ts) followed by the final non-empty push.  A positive `maxLength`
is required for termination (the source's only call site passes 4096). -/
def splitGo (maxLength : Nat) (hpos : 0 < maxLength) (remaining : List Char) :
    List (List Char) :=
  if maxLength < remaining.length then
    let si := splitIndexFor maxLength remaining
    trimEndL (remaining.take si) :: splitGo maxLength hpos (trimStartL (remaining.drop si))
  else if remaining.isEmpty then [] else [remaining]
termination_by remaining.length
decreasing_by
  have hsi := splitIndexFor_pos maxLength hpos remaining
  have htrim : (trimStartL (remaining.drop (splitIndexFor maxLength remaining))).length ≤
      (remaining.drop (splitIndexFor maxLength remaining)).length :=
    List.Sublist.length_le (List.dropWhile_sublist isJsSpace)
  simp only [List.length_drop] at htrim ⊢
  omega

/-- Embedding of `splitMessage(text, maxLength)` (src/api.ts). -/
def splitMessage (text : List Char) (maxLength : Nat) (hpos : 0 < maxLength) :
    List (List Char) :=
  if text.length ≤ maxLength then [text] else splitGo maxLength hpos text

/-- Result of one outbound call (src/types.ts `SendResult`). -/
structure SendResult where
  ok : Bool
  messageId : Option String := none
  error : Option String := none
deriving DecidableEq

/-- The request body `sendText` builds per chunk; the constant envelope
fields (`messaging_product`, `recipient_type`, `type`) are fixed by
construction and omitted. -/
structure SendTextRequest where
  to_ : String
  previewUrl : Bool
  body : List Char
deriving DecidableEq

def mkTextRequest (to_ : String) (chunk : List Char) : SendTextRequest :=
  ⟨to_, false, chunk⟩

/-- The sequential `for (const chunk of chunks)` loop of `sendText`
(src/api.ts): issue one `sendRequest` per chunk, in order, stopping at the
first failure.  `send` stands for `sendRequest`; the first component lists
the requests actually issued, the second is the returned `SendResult`. -/
def sendTextGo (send : SendTextRequest → SendResult) (to_ : String) :
    List (List Char) → SendResult → List SendTextRequest × SendResult
  | [], last => ([], last)
  | c :: cs, _ =>
    let r := send (mkTextRequest to_ c)
    if r.ok then
      let rest := sendTextGo send to_ cs r
      (mkTextRequest to_ c :: rest.1, rest.2)
    else ([mkTextRequest to_ c], r)

/-- Embedding of `sendText(config, to, text, log)` (src/api.ts): chunk at
4096 and run the send loop starting from the `"No chunks"` placeholder. -/
def sendText (send : SendTextRequest → SendResult) (to_ : String)
    (text : List Char) : List SendTextRequest × SendResult :=
  sendTextGo send to_ (splitMessage text 4096 (by decide)) ⟨false, none, some "No chunks"⟩

/-! ## Lemmas: bitwise accumulator and hex encoding -/

theorem lor_eq_zero_iff (a b : Nat) : a ||| b = 0 ↔ a = 0 ∧ b = 0 := by
  constructor
  · intro h
    constructor
    · refine Nat.zero_of_testBit_eq_false fun i => ?_
      have := congrArg (fun n => Nat.testBit n i) h
      simp only [Nat.testBit_or, Nat.zero_testBit] at this
      exact (Bool.or_eq_false_iff.mp this).1
    · refine Nat.zero_of_testBit_eq_false fun i => ?_
      have := congrArg (fun n => Nat.testBit n i) h
      simp only [Nat.testBit_or, Nat.zero_testBit] at this
      exact (Bool.or_eq_false_iff.mp this).2
  · rintro ⟨rfl, rfl⟩; rfl

theorem foldl_orxor_eq_zero (l : List (Nat × Nat)) :
    ∀ acc : Nat, (l.foldl (fun acc p => acc ||| (p.1 ^^^ p.2)) acc = 0) ↔
      (acc = 0 ∧ ∀ p ∈ l, p.1 = p.2) := by
  induction l with
  | nil => intro acc; simp
  | cons p l ih =>
    intro acc
    simp only [List.foldl_cons, List.mem_cons]
    rw [ih, lor_eq_zero_iff, Nat.xor_eq_zero]
    constructor
    · rintro ⟨⟨h1, h2⟩, h3⟩
      refine ⟨h1, fun q hq => ?_⟩
      rcases hq with rfl | hq
      · exact h2
      · exact h3 q hq
    · rintro ⟨h1, h2⟩
      exact ⟨⟨h1, h2 p (Or.inl rfl)⟩, fun q hq => h2 q (Or.inr hq)⟩

theorem zip_forall_eq_iff : ∀ (a b : List Nat), a.length = b.length →
    ((∀ p ∈ a.zip b, p.1 = p.2) ↔ a = b) := by
  intro a
  induction a with
  | nil =>
    intro b hb
    cases b with
    | nil => simp
    | cons y b => simp at hb
  | cons x a ih =>
    intro b hb
    cases b with
    | nil => simp at hb
    | cons y b =>
      have hb' : a.length = b.length := by simpa using hb
      simp only [List.zip_cons_cons, List.mem_cons, List.cons.injEq]
      constructor
      · intro h
        exact ⟨h (x, y) (Or.inl rfl), (ih b hb').mp fun p hp => h p (Or.inr hp)⟩
      · rintro ⟨rfl, rfl⟩
        intro p hp
        rcases hp with rfl | hp
        · rfl
        · exact ((ih _ hb').mpr rfl) p hp

/-- With equal lengths, the constant-time comparison agrees with equality. -/
theorem timingSafeEqual_eq_iff {a b : List Nat} (h : a.length = b.length) :
    timingSafeEqual a b = true ↔ a = b := by
  rw [timingSafeEqual, beq_iff_eq, foldl_orxor_eq_zero]
  constructor
  · rintro ⟨-, hall⟩
    exact (zip_forall_eq_iff a b h).mp hall
  · intro he
    exact ⟨rfl, (zip_forall_eq_iff a b h).mpr he⟩

theorem timingSafeEqual_refl (a : List Nat) : timingSafeEqual a a = true :=
  (timingSafeEqual_eq_iff rfl).mpr rfl

theorem hexBytes_length (l : List Nat) : (hexBytes l).length = 2 * l.length := by
  induction l with
  | nil => rfl
  | cons b rest ih => simp [hexBytes, ih]; omega

theorem hexDigit_inj (m n : Nat) (hm : m < 16) (hn : n < 16)
    (h : hexDigit m = hexDigit n) : m = n := by
  unfold hexDigit at h
  split_ifs at h <;> omega

theorem hexBytes_inj : ∀ a b : List Nat, (∀ x ∈ a, x < 256) → (∀ x ∈ b, x < 256) →
    hexBytes a = hexBytes b → a = b := by
  intro a
  induction a with
  | nil =>
    intro b _ _ h
    cases b with
    | nil => rfl
    | cons y b => simp [hexBytes] at h
  | cons x a ih =>
    intro b ha hb h
    cases b with
    | nil => simp [hexBytes] at h
    | cons y b =>
      simp only [hexBytes, List.cons.injEq] at h
      obtain ⟨h1, h2, h3⟩ := h
      have hx : x < 256 := ha x (List.mem_cons_self x a)
      have hy : y < 256 := hb y (List.mem_cons_self y b)
      have e1 : x / 16 = y / 16 := hexDigit_inj _ _ (by omega) (by omega) h1
      have e2 : x % 16 = y % 16 := hexDigit_inj _ _ (by omega) (by omega) h2
      have exy : x = y := by omega
      rw [exy, ih b (fun z hz => ha z (List.mem_cons_of_mem _ hz))
        (fun z hz => hb z (List.mem_cons_of_mem _ hz)) h3]

theorem wordBytes_mem_lt (n : Nat) : ∀ x ∈ wordBytes n, x < 256 := by
  intro x hx
  simp only [wordBytes, List.mem_cons, List.not_mem_nil, or_false] at hx
  rcases hx with rfl | rfl | rfl | rfl <;> exact Nat.mod_lt _ (by decide)

theorem hashBytes_mem_lt (s : Hash8) : ∀ x ∈ hashBytes s, x < 256 := by
  intro x hx
  simp only [hashBytes, List.mem_append] at hx
  rcases hx with ((((((h | h) | h) | h) | h) | h) | h) | h <;>
    exact wordBytes_mem_lt _ x h

theorem sha256_mem_lt (msg : List Nat) : ∀ x ∈ sha256 msg, x < 256 :=
  hashBytes_mem_lt _

theorem sha256_length (msg : List Nat) : (sha256 msg).length = 32 := by
  simp [sha256, hashBytes, wordBytes]

theorem hmacSha256_length (key msg : List Nat) : (hmacSha256 key msg).length = 32 := by
  rw [hmacSha256]
  exact sha256_length _

theorem hmacSha256_mem_lt (key msg : List Nat) : ∀ x ∈ hmacSha256 key msg, x < 256 := by
  rw [hmacSha256]
  exact sha256_mem_lt _

theorem signWebhook_length (body secret : List Nat) :
    (signWebhook body secret).length = 71 := by
  simp [signWebhook, sha256Tag, hexBytes_length, hmacSha256_length]

/-! ## Claims C2 and C3: signature verification -/

/-- C2 (amended): for every body and every NON-EMPTY secret, verifying the
body against `"sha256=" + lowercase-hex(HMAC-SHA256(secret, body))` succeeds;
and verifying any other body whose HMAC-SHA256 under the secret differs (as a
single-byte mutation yields, by collision resistance of HMAC-SHA256) against
that original signature fails.  The original claim's "every secret" fails for
the empty secret, which the verifier rejects unconditionally. -/
theorem verifyWebhookSignature_roundtrip (body body' secret : List Nat)
    (hsec : secret ≠ []) :
    verifyWebhookSignature body (some (signWebhook body secret)) secret = true
    ∧ (hmacSha256 secret body' ≠ hmacSha256 secret body →
        verifyWebhookSignature body' (some (signWebhook body secret)) secret = false) := by
  have hne : (signWebhook body secret).isEmpty = false := by
    simp [signWebhook, sha256Tag]
  have hsecE : secret.isEmpty = false := by simp [List.isEmpty_iff, hsec]
  constructor
  · simp [verifyWebhookSignature, hne, hsecE, timingSafeEqual_refl]
  · intro hmac_ne
    have hlen : (signWebhook body secret).length = (signWebhook body' secret).length := by
      simp [signWebhook_length]
    have hdiff : signWebhook body secret ≠ signWebhook body' secret := by
      intro he
      exact hmac_ne (hexBytes_inj _ _ (hmacSha256_mem_lt secret body')
        (hmacSha256_mem_lt secret body)
        (List.append_cancel_left he.symm))
    have htse : timingSafeEqual (signWebhook body secret) (signWebhook body' secret) = false := by
      rw [Bool.eq_false_iff]
      intro htrue
      exact hdiff ((timingSafeEqual_eq_iff hlen).mp htrue)
    simp [verifyWebhookSignature, hne, hsecE, hlen, htse]

/-- C2 witness: concrete roundtrip success for body `[97]`, secret `[107]`,
and rejection of the single-byte mutation `[98]`. -/
theorem verifyWebhookSignature_roundtrip_witness :
    verifyWebhookSignature [97] (some (signWebhook [97] [107])) [107] = true
    ∧ verifyWebhookSignature [98] (some (signWebhook [97] [107])) [107] = false := by
  have h := verifyWebhookSignature_roundtrip [97] [98] [107] (by decide)
  exact ⟨h.1, h.2 (by decide)⟩

/-- C2 counterexample: with the EMPTY secret the claimed roundtrip
`verify(b, sign(b, s), s) = true` fails — the verifier returns `false`
because an empty `appSecret` is rejected up front. -/
theorem verifyWebhookSignature_empty_secret_cex :
    verifyWebhookSignature [97] (some (signWebhook [97] [])) [] = false := rfl

/-- C3: the verifier (a total function, hence never throwing) returns `false`
whenever the secret is empty, the header is absent, the byte lengths of the
header and of the computed `"sha256=" + hex` value differ, or the lengths
match but the contents differ at some byte (the comparison being the
constant-time accumulator of `timingSafeEqual`). -/
theorem verifyWebhookSignature_failure_modes (rawBody : List Nat)
    (signatureHeader : Option (List Nat)) (appSecret : List Nat) :
    (appSecret = [] → verifyWebhookSignature rawBody signatureHeader appSecret = false)
    ∧ (signatureHeader = none →
        verifyWebhookSignature rawBody signatureHeader appSecret = false)
    ∧ (∀ s, signatureHeader = some s →
        s.length ≠ (signWebhook rawBody appSecret).length →
        verifyWebhookSignature rawBody signatureHeader appSecret = false)
    ∧ (∀ s, signatureHeader = some s →
        s.length = (signWebhook rawBody appSecret).length →
        s ≠ signWebhook rawBody appSecret →
        verifyWebhookSignature rawBody signatureHeader appSecret = false) := by
  refine ⟨?_, ?_, ?_, ?_⟩
  · rintro rfl
    cases signatureHeader with
    | none => rfl
    | some s => simp [verifyWebhookSignature]
  · rintro rfl
    rfl
  · rintro s rfl hlen
    simp only [verifyWebhookSignature]
    split_ifs <;> rfl
  · rintro s rfl hlen hne
    simp only [verifyWebhookSignature]
    split_ifs with h1 h2
    · rfl
    · rfl
    · rw [Bool.eq_false_iff]
      intro htrue
      exact hne ((timingSafeEqual_eq_iff hlen).mp htrue)

/-- C3 witness: the failure modes at concrete inputs — empty secret, absent
header, a header of the wrong byte length, and an equal-length header whose
bytes differ (the signature of a different body). -/
theorem verifyWebhookSignature_failure_modes_witness :
    verifyWebhookSignature [97] (some [1, 2]) [] = false
    ∧ verifyWebhookSignature [97] none [107] = false
    ∧ verifyWebhookSignature [97] (some [48]) [107] = false
    ∧ verifyWebhookSignature [97] (some (signWebhook [98] [107])) [107] = false := by
  refine ⟨(verifyWebhookSignature_failure_modes [97] (some [1, 2]) []).1 rfl,
    (verifyWebhookSignature_failure_modes [97] none [107]).2.1 rfl,
    (verifyWebhookSignature_failure_modes [97] (some [48]) [107]).2.2.1 [48] rfl
      (by simp [signWebhook_length]),
    (verifyWebhookSignature_failure_modes [97] (some (signWebhook [98] [107])) [107]).2.2.2
      (signWebhook [98] [107]) rfl (by simp [signWebhook_length]) (by decide)⟩

/-! ## Lemmas: content extraction -/

theorem interactiveContent_media (reply : Option InteractiveObject) :
    (interactiveContent reply).media = none := by
  cases reply with
  | none => rfl
  | some r =>
    obtain ⟨t, br, lr⟩ := r
    simp only [interactiveContent]
    split_ifs <;> cases br <;> cases lr <;> rfl

/-- C9: at most one of `media`/`interactiveReply` is populated in the
extracted content, and hence in every message `processMessage` hands to the
dispatcher; `text` is a non-optional field of both structures, so it is
always set. -/
theorem inbound_media_interactive_exclusive :
    (∀ msg : WAMessage, ¬ ((extractMessageContent msg).media.isSome = true ∧
        (extractMessageContent msg).interactiveReply.isSome = true))
    ∧ (∀ (msg : WAMessage) (contacts : List WebhookContact)
        (config : WhatsAppCloudConfig) (m : ParsedInboundMessage),
        processMessage msg contacts config = some m →
        ¬ (m.media.isSome = true ∧ m.interactiveReply.isSome = true)) := by
  have hex : ∀ msg : WAMessage, ¬ ((extractMessageContent msg).media.isSome = true ∧
      (extractMessageContent msg).interactiveReply.isSome = true) := by
    intro msg
    unfold extractMessageContent
    split_ifs <;> simp [interactiveContent_media]
  refine ⟨hex, ?_⟩
  intro msg contacts config m h
  unfold processMessage at h
  split_ifs at h
  · simp only [Option.some.injEq] at h
    subst h
    exact hex msg

/-- Example open-policy configuration. -/
def cfgOpen : WhatsAppCloudConfig := ⟨[1], "tok", "open", [], true⟩

/-- Example inbound text message. -/
def msgTextEx : WAMessage :=
  { from_ := "1", id := "m1", timestamp := "0", type := "text",
    text := some ⟨some "Hello bot!"⟩ }

/-- C9 witness: the invariant instantiated on a concrete processed message. -/
theorem inbound_media_interactive_exclusive_witness :
    ¬ (((⟨"1", "1", "Hello bot!", "m1", "0", "text", none, none, none⟩ :
        ParsedInboundMessage).media.isSome = true)
      ∧ ((⟨"1", "1", "Hello bot!", "m1", "0", "text", none, none, none⟩ :
        ParsedInboundMessage).interactiveReply.isSome = true)) :=
  inbound_media_interactive_exclusive.2 msgTextEx [] cfgOpen _ rfl

/-! ## Lemmas: non-empty strings and trimming -/

theorem append_ne_empty_left (a b : String) (ha : a.length ≠ 0) : a ++ b ≠ "" := by
  intro h
  have hl : a.length + b.length = 0 := by
    simpa [String.length_append] using congrArg String.length h
  omega

theorem append3_ne_empty (a b c : String) (ha : a.length ≠ 0) : a ++ b ++ c ≠ "" := by
  apply append_ne_empty_left
  rw [String.length_append]
  omega

theorem mem_trimStartL {c : Char} {l : List Char} (hc : c ∈ l)
    (hns : isJsSpace c = false) : c ∈ trimStartL l := by
  unfold trimStartL
  rw [← List.takeWhile_append_dropWhile (p := isJsSpace) (l := l)] at hc
  rcases List.mem_append.mp hc with h | h
  · have := List.mem_takeWhile_imp h
    rw [hns] at this
    exact absurd this (by simp)
  · exact h

theorem trimEndL_ne_nil {c : Char} {l : List Char} (hc : c ∈ l)
    (hns : isJsSpace c = false) : trimEndL l ≠ [] := by
  unfold trimEndL
  intro h
  have h2 : l.reverse.dropWhile isJsSpace = [] := by
    simpa [List.reverse_eq_nil_iff] using h
  rw [List.dropWhile_eq_nil_iff] at h2
  have := h2 c (List.mem_reverse.mpr hc)
  rw [hns] at this
  exact absurd this (by simp)

theorem jsTrim_ne_empty {s : String} {c : Char} (hc : c ∈ s.toList)
    (hns : isJsSpace c = false) : jsTrim s ≠ "" := by
  unfold jsTrim
  intro h
  have hdata : trimEndL (trimStartL s.toList) = [] := by
    simpa using congrArg String.data h
  exact trimEndL_ne_nil (mem_trimStartL hc hns) hns hdata

theorem mem_toList_append_left {c : Char} (a b : String) (h : c ∈ a.toList) :
    c ∈ (a ++ b).toList := by
  show c ∈ (a ++ b).data
  rw [String.data_append]
  exact List.mem_append_left _ h

/-! ## Claim C4: normalizer totality and text content -/

/-- C4 counterexample: a well-formed text message with no body normalizes to
an EMPTY `text` (`msg.text?.body ?? ""`), contradicting the claim that the
result is non-empty for every message of every kind. -/
theorem extractMessageContent_empty_text_cex :
    (extractMessageContent
      { from_ := "1", id := "m", timestamp := "0", type := "text" }).text = "" := rfl

/-- C4 (amended): normalization is a total function (so it returns for every
well-formed payload), and the resulting `text` is non-empty provided every
payload-supplied string that is used verbatim — a text body, a media caption,
an interactive reply title, a quick-reply button text — is itself non-empty
(and, for text messages, present).  Without those provisos the claim fails:
an absent or empty text body and an empty caption all yield `text = ""`. -/
theorem extractMessageContent_text_nonempty (msg : WAMessage)
    (htext : msg.type = "text" → ∃ b, (msg.text.bind fun t => t.body) = some b ∧ b ≠ "")
    (himg : ∀ i, msg.image = some i → i.caption ≠ some "")
    (hvid : ∀ v, msg.video = some v → v.caption ≠ some "")
    (hdoc : ∀ d, msg.document = some d → d.caption ≠ some "")
    (hint : ∀ r, msg.interactive = some r →
        (∀ br, r.button_reply = some br → br.title ≠ "") ∧
        (∀ lr, r.list_reply = some lr → lr.title ≠ ""))
    (hbtn : ∀ b, msg.button = some b → b.text ≠ "") :
    (extractMessageContent msg).text ≠ "" := by
  unfold extractMessageContent
  split_ifs with h1 h2 h3 h4 h5 h6 h7 h8 h9 h10
  · obtain ⟨b, hb, hbne⟩ := htext h1
    simpa [hb] using hbne
  · cases hi : msg.image with
    | none => simp [hi]
    | some i =>
      cases hc : i.caption with
      | none => simp [hi, hc]
      | some c =>
        simp only [hi, hc, Option.some_bind, Option.getD_some]
        intro hcc
        exact himg i hi (by rw [hc, hcc])
  · simp
  · cases hv : msg.video with
    | none => simp [hv]
    | some v =>
      cases hc : v.caption with
      | none => simp [hv, hc]
      | some c =>
        simp only [hv, hc, Option.some_bind, Option.getD_some]
        intro hcc
        exact hvid v hv (by rw [hc, hcc])
  · cases hd : msg.document with
    | none =>
      simp only [hd, Option.none_bind, Option.getD_none]
      exact append3_ne_empty _ _ _ (by decide)
    | some d =>
      cases hc : d.caption with
      | none =>
        simp only [hd, hc, Option.some_bind, Option.getD_none]
        exact append3_ne_empty _ _ _ (by decide)
      | some c =>
        simp only [hd, hc, Option.some_bind, Option.getD_some]
        intro hcc
        exact hdoc d hd (by rw [hc, hcc])
  · simp
  · cases hl : msg.location with
    | none => simp [hl]
    | some loc =>
      simp only [hl]
      exact @jsTrim_ne_empty _ '['
        (mem_toList_append_left _ _ (mem_toList_append_left _ _
          (mem_toList_append_left _ _ (mem_toList_append_left _ _ (by decide)))))
        (by decide)
  · cases hcs : msg.contacts with
    | none => simp [hcs]
    | some cs =>
      simp only [hcs]
      exact append3_ne_empty _ _ _ (by decide)
  · cases hi : msg.interactive with
    | none => simp [hi, interactiveContent]
    | some r =>
      obtain ⟨t, br, lr⟩ := r
      obtain ⟨hbr, hlr⟩ := hint ⟨t, br, lr⟩ hi
      simp only [hi, interactiveContent]
      split_ifs with ht1 ht2
      · cases hb : br with
        | none => simp
        | some brv => exact hbr brv hb
      · cases hl : lr with
        | none => simp
        | some lrv => exact hlr lrv hl
      · simp
  · cases hb : msg.button with
    | none => simp [hb]
    | some b =>
      cases hbe : b.text == "" <;> intro hcc
      all_goals exact hbtn b hb (by simpa [hb] using hcc)
  · exact append3_ne_empty _ _ _ (by decide)

/-- C4 witness: a text message with the non-empty body "Hello bot!" has
non-empty normalized text. -/
theorem extractMessageContent_text_nonempty_witness :
    (extractMessageContent msgTextEx).text ≠ "" :=
  extractMessageContent_text_nonempty msgTextEx
    (fun _ => ⟨"Hello bot!", rfl, by decide⟩)
    (fun _ h => nomatch h) (fun _ h => nomatch h) (fun _ h => nomatch h)
    (fun _ h => nomatch h) (fun _ h => nomatch h)

/-! ## Claim C5: image normalization -/

/-- Example image message without caption. -/
def msgImgNoCap : WAMessage :=
  { from_ := "1", id := "m2", timestamp := "0", type := "image",
    image := some ⟨"mid", "image/jpeg", none, none⟩ }

/-- Example image message with caption "nice". -/
def msgImgCap : WAMessage :=
  { from_ := "1", id := "m3", timestamp := "0", type := "image",
    image := some ⟨"mid", "image/jpeg", none, some "nice"⟩ }

/-- C5 counterexample: for a caption-less image the normalized text is
`"[📷 Image]"` (with the emoji), not `"[Image]"` as the claim states. -/
theorem extract_image_placeholder_cex :
    (extractMessageContent msgImgNoCap).text = "[📷 Image]"
    ∧ (extractMessageContent msgImgNoCap).text ≠ "[Image]" := ⟨rfl, by decide⟩

/-- C5 (amended): for an image message the placeholder text is exactly
`"[📷 Image]"` when no caption is present; with caption "nice" the text is
"nice"; and `media.mimeType` is copied from the payload's `mime_type`. -/
theorem extract_image_content (msg : WAMessage) (i : MediaObject)
    (htype : msg.type = "image") (himg : msg.image = some i) :
    (i.caption = none → (extractMessageContent msg).text = "[📷 Image]")
    ∧ (i.caption = some "nice" → (extractMessageContent msg).text = "nice")
    ∧ (extractMessageContent msg).media = some ⟨i.id, i.mime_type, i.caption, none⟩ := by
  refine ⟨fun hc => ?_, fun hc => ?_, ?_⟩
  · simp [extractMessageContent, htype, himg, hc]
  · simp [extractMessageContent, htype, himg, hc]
  · simp [extractMessageContent, htype, himg]

/-- C5 witness: both concrete image scenarios, with `mimeType` taken from
the payload. -/
theorem extract_image_content_witness :
    (extractMessageContent msgImgNoCap).text = "[📷 Image]"
    ∧ (extractMessageContent msgImgCap).text = "nice"
    ∧ (extractMessageContent msgImgCap).media =
        some ⟨"mid", "image/jpeg", some "nice", none⟩ :=
  ⟨(extract_image_content msgImgNoCap _ rfl rfl).1 rfl,
   (extract_image_content msgImgCap _ rfl rfl).2.1 rfl,
   (extract_image_content msgImgCap _ rfl rfl).2.2⟩

/-! ## Claim C7: allow-list access control -/

/-- C7: under `"allowlist"` policy a sender is allowed iff some allow-list
entry has the same digit-stripped form as the sender id; the concrete
formatted number is accepted; and reformatting the sender id or the
allow-list entries (any change preserving the digit content) never changes
the outcome. -/
theorem isAllowed_allowlist (senderId : String) (config : WhatsAppCloudConfig)
    (hmode : config.dmPolicy = "allowlist") :
    (isAllowed senderId config = true ↔
      ∃ n ∈ config.allowFrom, normalizePhone n = normalizePhone senderId)
    ∧ isAllowed "+39 349 123 4567" ⟨[], "", "allowlist", ["393491234567"], true⟩ = true
    ∧ (∀ s', normalizePhone s' = normalizePhone senderId →
        isAllowed s' config = isAllowed senderId config)
    ∧ (∀ l' : List String, l'.map normalizePhone = config.allowFrom.map normalizePhone →
        isAllowed senderId { config with allowFrom := l' } = isAllowed senderId config) := by
  have key : ∀ (sid : String) (cfg : WhatsAppCloudConfig), cfg.dmPolicy = "allowlist" →
      isAllowed sid cfg =
        (cfg.allowFrom.map normalizePhone).any (fun x => x == normalizePhone sid) := by
    intro sid cfg h
    simp [isAllowed, h, List.any_map, Function.comp_def]
  refine ⟨?_, by decide, ?_, ?_⟩
  · rw [key _ _ hmode, List.any_eq_true]
    constructor
    · rintro ⟨x, hx, hbeq⟩
      obtain ⟨n, hn, rfl⟩ := List.mem_map.mp hx
      exact ⟨n, hn, by simpa using hbeq⟩
    · rintro ⟨n, hn, heq⟩
      exact ⟨normalizePhone n, List.mem_map.mpr ⟨n, hn, rfl⟩, by simpa using heq⟩
  · intro s' hs'
    rw [key _ _ hmode, key _ _ hmode, hs']
  · intro l' hl'
    rw [key senderId { config with allowFrom := l' } hmode, key senderId config hmode, hl']

/-- C7 witness: the theorem's concrete conjunct at a configuration in
allow-list mode. -/
theorem isAllowed_allowlist_witness :
    isAllowed "+39 349 123 4567" ⟨[], "", "allowlist", ["393491234567"], true⟩ = true :=
  (isAllowed_allowlist "0" ⟨[], "", "allowlist", ["393491234567"], true⟩ rfl).2.1

/-! ## Claim C8: webhook challenge verification -/

/-- The JavaScript truthiness of `challenge` spelled out. -/
theorem challenge_truthy_iff (challenge : Option String) :
    challenge.getD "" ≠ "" ↔ ∃ c, challenge = some c ∧ c ≠ "" := by
  cases challenge <;> simp

/-- C8 counterexample: with matching mode and token and a PRESENT but empty
challenge parameter (`?hub.challenge=` yields the empty string), the response
is 403, not the 200-with-challenge-body the claim requires for every present
challenge. -/
theorem handleVerification_empty_challenge_cex :
    handleVerification (some "subscribe") (some "tok") (some "")
        ⟨[], "tok", "open", [], true⟩ = ⟨403, "Forbidden"⟩
    ∧ handleVerification (some "subscribe") (some "tok") (some "")
        ⟨[], "tok", "open", [], true⟩ ≠ ⟨200, ""⟩ := by decide

/-- C8 (amended): the response is 200 with the challenge as body iff the mode
is "subscribe", the token matches the configured verify token, and the
challenge parameter is present AND non-empty; otherwise 403 "Forbidden". -/
theorem handleVerification_correct (mode token challenge : Option String)
    (config : WhatsAppCloudConfig) :
    ((handleVerification mode token challenge config).status = 200 ↔
      (mode = some "subscribe" ∧ token = some config.verifyToken ∧
        ∃ c, challenge = some c ∧ c ≠ ""))
    ∧ (∀ c, challenge = some c → c ≠ "" → mode = some "subscribe" →
        token = some config.verifyToken →
        handleVerification mode token challenge config = ⟨200, c⟩)
    ∧ (¬ (mode = some "subscribe" ∧ token = some config.verifyToken ∧
          ∃ c, challenge = some c ∧ c ≠ "") →
        handleVerification mode token challenge config = ⟨403, "Forbidden"⟩) := by
  have hcond : ((mode == some "subscribe") && (token == some config.verifyToken)
      && !(challenge.getD "" == "")) = true ↔
      (mode = some "subscribe" ∧ token = some config.verifyToken ∧
        ∃ c, challenge = some c ∧ c ≠ "") := by
    rw [Bool.and_eq_true, Bool.and_eq_true]
    rw [Bool.not_eq_true', beq_eq_false_iff_ne]
    rw [beq_iff_eq, beq_iff_eq, challenge_truthy_iff]
    tauto
  unfold handleVerification
  split_ifs with h
  · have hc := hcond.mp h
    refine ⟨by simp [hc], fun c hcc hcne hm ht => ?_, fun hn => absurd hc hn⟩
    simp [hcc]
  · have hc := fun hp => by rw [hcond.mpr hp] at h; exact h rfl
    refine ⟨⟨fun h200 => by simp at h200, fun hp => absurd hp hc⟩,
      fun c hcc hcne hm ht => absurd ⟨hm, ht, c, hcc, hcne⟩ hc, fun _ => rfl⟩

/-- C8 witness: correct token with challenge "abc123" gives 200 "abc123";
wrong token gives 403. -/
theorem handleVerification_correct_witness :
    handleVerification (some "subscribe") (some "tok") (some "abc123")
        ⟨[], "tok", "open", [], true⟩ = ⟨200, "abc123"⟩
    ∧ handleVerification (some "subscribe") (some "wrong") (some "abc123")
        ⟨[], "tok", "open", [], true⟩ = ⟨403, "Forbidden"⟩ :=
  ⟨(handleVerification_correct (some "subscribe") (some "tok") (some "abc123")
      ⟨[], "tok", "open", [], true⟩).2.1 "abc123" rfl (by decide) rfl rfl,
   (handleVerification_correct (some "subscribe") (some "wrong") (some "abc123")
      ⟨[], "tok", "open", [], true⟩).2.2 (by simp)⟩

/-! ## Claim C1: POST acknowledgment and signature gate -/

/-- C1: every POST to the webhook path is answered 200 "OK" regardless of the
parse outcome or signature validity (the response value does not depend on
them); and when an `appSecret` is configured and the signature fails to
verify, no inbound message is ever handed to the dispatcher callback. -/
theorem handleIncoming_ack_and_drop (parse : List Nat → Option WebhookPayload)
    (config : WhatsAppCloudConfig) (signature : Option (List Nat))
    (rawBody : List Nat) :
    (handleIncoming parse config signature rawBody).1 = ⟨200, "OK"⟩
    ∧ (config.appSecret ≠ [] →
        verifyWebhookSignature rawBody signature config.appSecret = false →
        (handleIncoming parse config signature rawBody).2.2 = []) := by
  constructor
  · rfl
  · intro hsec hver
    simp only [handleIncoming]
    rw [if_pos ⟨by simp [List.isEmpty_iff, hsec], by simp [hver]⟩]

/-- Embedding of a parse that always fails, for the witness. -/
def parseNone : List Nat → Option WebhookPayload := fun _ => none

/-- C1 witness: with a configured secret and no signature header, the
response is still 200 "OK" and nothing is dispatched. -/
theorem handleIncoming_ack_and_drop_witness :
    (handleIncoming parseNone ⟨[1], "t", "open", [], true⟩ none []).1 = ⟨200, "OK"⟩
    ∧ (handleIncoming parseNone ⟨[1], "t", "open", [], true⟩ none []).2.2 = [] :=
  ⟨(handleIncoming_ack_and_drop parseNone ⟨[1], "t", "open", [], true⟩ none []).1,
   (handleIncoming_ack_and_drop parseNone ⟨[1], "t", "open", [], true⟩ none []).2
     (by decide) rfl⟩

/-! ## Lemmas: chunking and the send loop -/

theorem four_k_pos : (0 : Nat) < 4096 := by decide

theorem trimStartL_length_le (l : List Char) : (trimStartL l).length ≤ l.length :=
  List.Sublist.length_le (List.dropWhile_sublist _)

theorem trimEndL_length_le (l : List Char) : (trimEndL l).length ≤ l.length := by
  unfold trimEndL
  calc (l.reverse.dropWhile isJsSpace).reverse.length
      = (l.reverse.dropWhile isJsSpace).length := List.length_reverse _
    _ ≤ l.reverse.length := List.Sublist.length_le (List.dropWhile_sublist _)
    _ = l.length := List.length_reverse _

theorem splitGo_length_le (maxLength : Nat) (hpos : 0 < maxLength) :
    ∀ (n : Nat) (remaining : List Char), remaining.length ≤ n →
      ∀ c ∈ splitGo maxLength hpos remaining, c.length ≤ maxLength := by
  intro n
  induction n with
  | zero =>
    intro remaining hr c hc
    have hrem : remaining = [] := List.length_eq_zero.mp (Nat.le_zero.mp hr)
    subst hrem
    unfold splitGo at hc
    simp at hc
  | succ n ih =>
    intro remaining hr c hc
    unfold splitGo at hc
    split_ifs at hc with h1 h2
    · rcases List.mem_cons.mp hc with rfl | hc'
      · calc (trimEndL (remaining.take (splitIndexFor maxLength remaining))).length
            ≤ (remaining.take (splitIndexFor maxLength remaining)).length :=
              trimEndL_length_le _
          _ ≤ splitIndexFor maxLength remaining := by
              rw [List.length_take]; exact min_le_left _ _
          _ ≤ maxLength := splitIndexFor_le maxLength remaining
      · refine ih _ ?_ c hc'
        have hsi := splitIndexFor_pos maxLength hpos remaining
        have hd := trimStartL_length_le
          (remaining.drop (splitIndexFor maxLength remaining))
        rw [List.length_drop] at hd
        omega
    · exact absurd hc (List.not_mem_nil c)
    · rw [List.mem_singleton.mp hc]
      omega

theorem splitMessage_chunk_le (text : List Char) (ml : Nat) (h : 0 < ml) :
    ∀ c ∈ splitMessage text ml h, c.length ≤ ml := by
  unfold splitMessage
  split_ifs with ht
  · intro c hc
    rw [List.mem_singleton.mp hc]
    omega
  · exact splitGo_length_le ml h text.length text le_rfl

theorem splitMessage_ne_nil (text : List Char) (ml : Nat) (h : 0 < ml) :
    splitMessage text ml h ≠ [] := by
  unfold splitMessage
  split_ifs with ht
  · simp
  · unfold splitGo
    rw [if_pos (by omega)]
    simp

theorem dropWhile_head_false {α : Type} (p : α → Bool) :
    ∀ (l : List α) (c : α) (post : List α), l.dropWhile p = c :: post → p c = false := by
  intro l
  induction l with
  | nil => intro c post h; simp at h
  | cons a l ih =>
    intro c post h
    rw [List.dropWhile_cons] at h
    split_ifs at h with hpa
    · exact ih c post h
    · injection h with h1 h2
      subst h1
      simpa using hpa

theorem sendTextGo_nil (send : SendTextRequest → SendResult) (to_ : String)
    (init : SendResult) : sendTextGo send to_ [] init = ([], init) := rfl

theorem sendTextGo_cons (send : SendTextRequest → SendResult) (to_ : String)
    (c : List Char) (cs : List (List Char)) (init : SendResult) :
    sendTextGo send to_ (c :: cs) init =
      if (send (mkTextRequest to_ c)).ok then
        (mkTextRequest to_ c :: (sendTextGo send to_ cs (send (mkTextRequest to_ c))).1,
         (sendTextGo send to_ cs (send (mkTextRequest to_ c))).2)
      else ([mkTextRequest to_ c], send (mkTextRequest to_ c)) := rfl

theorem sendTextGo_all_ok (send : SendTextRequest → SendResult) (to_ : String) :
    ∀ (chunks : List (List Char)) (init : SendResult),
      (∀ c ∈ chunks, (send (mkTextRequest to_ c)).ok = true) →
      sendTextGo send to_ chunks init =
        (chunks.map (mkTextRequest to_),
         ((chunks.getLast?).map (fun c => send (mkTextRequest to_ c))).getD init) := by
  intro chunks
  induction chunks with
  | nil => intro init _; rfl
  | cons c cs ih =>
    intro init h
    have hok := h c (List.mem_cons_self c cs)
    have hrw := ih (send (mkTextRequest to_ c))
      (fun x hx => h x (List.mem_cons_of_mem _ hx))
    rw [sendTextGo_cons, if_pos hok, hrw]
    cases cs with
    | nil => simp [sendTextGo_nil]
    | cons d ds =>
      rw [List.getLast?_cons_cons]
      cases hlast : (d :: ds).getLast? with
      | none => simp at hlast
      | some x => simp

theorem sendTextGo_first_fail (send : SendTextRequest → SendResult) (to_ : String) :
    ∀ (pre : List (List Char)) (c : List Char) (post : List (List Char))
      (init : SendResult),
      (∀ p ∈ pre, (send (mkTextRequest to_ p)).ok = true) →
      (send (mkTextRequest to_ c)).ok = false →
      sendTextGo send to_ (pre ++ c :: post) init =
        ((pre ++ [c]).map (mkTextRequest to_), send (mkTextRequest to_ c)) := by
  intro pre
  induction pre with
  | nil =>
    intro c post init _ hc
    rw [List.nil_append, sendTextGo_cons, if_neg (by simp [hc])]
    simp
  | cons p pre ih =>
    intro c post init hpre hc
    have hok := hpre p (List.mem_cons_self p pre)
    have hrw := ih c post (send (mkTextRequest to_ p))
      (fun x hx => hpre x (List.mem_cons_of_mem _ hx)) hc
    rw [List.cons_append, sendTextGo_cons, if_pos hok, hrw]
    simp

theorem sendTextGo_result_mem (send : SendTextRequest → SendResult) (to_ : String) :
    ∀ (chunks : List (List Char)) (init : SendResult), chunks ≠ [] →
      ∃ c ∈ chunks, (sendTextGo send to_ chunks init).2 = send (mkTextRequest to_ c) := by
  intro chunks
  induction chunks with
  | nil => intro init h; exact absurd rfl h
  | cons c cs ih =>
    intro init _
    by_cases hok : (send (mkTextRequest to_ c)).ok = true
    · cases cs with
      | nil =>
        refine ⟨c, List.mem_cons_self c [], ?_⟩
        rw [sendTextGo_cons, if_pos hok, sendTextGo_nil]
      | cons d ds =>
        obtain ⟨x, hx, hres⟩ := ih (send (mkTextRequest to_ c)) (by simp)
        refine ⟨x, List.mem_cons_of_mem _ hx, ?_⟩
        rw [sendTextGo_cons, if_pos hok]
        exact hres
    · have hf : (send (mkTextRequest to_ c)).ok = false := by simpa using hok
      refine ⟨c, List.mem_cons_self c cs, ?_⟩
      rw [sendTextGo_cons, if_neg (by simp [hf])]

theorem sendTextGo_requests_mem (send : SendTextRequest → SendResult) (to_ : String) :
    ∀ (chunks : List (List Char)) (init : SendResult),
      ∀ r ∈ (sendTextGo send to_ chunks init).1, ∃ c ∈ chunks, r = mkTextRequest to_ c := by
  intro chunks
  induction chunks with
  | nil => intro init r hr; simp [sendTextGo] at hr
  | cons c cs ih =>
    intro init r hr
    by_cases hok : (send (mkTextRequest to_ c)).ok = true
    · rw [sendTextGo_cons, if_pos hok] at hr
      rcases List.mem_cons.mp hr with rfl | hr'
      · exact ⟨c, List.mem_cons_self c cs, rfl⟩
      · obtain ⟨x, hx, hrx⟩ := ih (send (mkTextRequest to_ c)) r hr'
        exact ⟨x, List.mem_cons_of_mem _ hx, hrx⟩
    · have hf : (send (mkTextRequest to_ c)).ok = false := by simpa using hok
      rw [sendTextGo_cons, if_neg (by simp [hf])] at hr
      rw [List.mem_singleton.mp hr]
      exact ⟨c, List.mem_cons_self c cs, rfl⟩

theorem sendTextGo_requests_ne_nil (send : SendTextRequest → SendResult) (to_ : String)
    (chunks : List (List Char)) (init : SendResult) (h : chunks ≠ []) :
    (sendTextGo send to_ chunks init).1 ≠ [] := by
  cases chunks with
  | nil => exact absurd rfl h
  | cons c cs =>
    by_cases hok : (send (mkTextRequest to_ c)).ok = true
    · rw [sendTextGo_cons, if_pos hok]
      simp
    · have hf : (send (mkTextRequest to_ c)).ok = false := by simpa using hok
      rw [sendTextGo_cons, if_neg (by simp [hf])]
      simp

/-! ## Claims C6 and C10: sendText chunking and totality -/

/-- C6: a text of length at most 4096 produces exactly one request carrying
the full text; every issued request body is at most 4096 long; chunks are
sent in list order and the first failing chunk ends the request sequence with
its own `SendResult` returned; with every chunk succeeding all chunks are
sent; and the overall result is `ok` exactly when every chunk's send is. -/
theorem sendText_chunking (send : SendTextRequest → SendResult) (to_ : String)
    (text : List Char) :
    (text.length ≤ 4096 → (sendText send to_ text).1 = [mkTextRequest to_ text])
    ∧ (∀ r ∈ (sendText send to_ text).1, r.body.length ≤ 4096)
    ∧ (∀ pre c post, splitMessage text 4096 four_k_pos = pre ++ c :: post →
        (∀ p ∈ pre, (send (mkTextRequest to_ p)).ok = true) →
        (send (mkTextRequest to_ c)).ok = false →
        (sendText send to_ text).1 = (pre ++ [c]).map (mkTextRequest to_)
        ∧ (sendText send to_ text).2 = send (mkTextRequest to_ c))
    ∧ ((∀ c ∈ splitMessage text 4096 four_k_pos,
          (send (mkTextRequest to_ c)).ok = true) →
        (sendText send to_ text).1 =
          (splitMessage text 4096 four_k_pos).map (mkTextRequest to_))
    ∧ ((sendText send to_ text).2.ok = true ↔
        ∀ c ∈ splitMessage text 4096 four_k_pos,
          (send (mkTextRequest to_ c)).ok = true) := by
  have hsend : sendText send to_ text =
      sendTextGo send to_ (splitMessage text 4096 four_k_pos)
        ⟨false, none, some "No chunks"⟩ := rfl
  refine ⟨?_, ?_, ?_, ?_, ?_, ?_⟩
  · intro hlen
    have hsplit : splitMessage text 4096 four_k_pos = [text] := by
      unfold splitMessage
      rw [if_pos hlen]
    rw [hsend, hsplit, sendTextGo_cons]
    by_cases hok : (send (mkTextRequest to_ text)).ok = true
    · rw [if_pos hok, sendTextGo_nil]
    · rw [if_neg hok]
  · intro r hr
    rw [hsend] at hr
    obtain ⟨c, hc, rfl⟩ := sendTextGo_requests_mem send to_ _ _ r hr
    exact splitMessage_chunk_le text 4096 four_k_pos c hc
  · intro pre c post hsplit hpre hc
    constructor <;>
      rw [hsend, hsplit, sendTextGo_first_fail send to_ pre c post _ hpre hc]
  · intro hall
    rw [hsend, sendTextGo_all_ok send to_ _ _ hall]
  · intro hok2
    by_cases hall : ∀ c ∈ splitMessage text 4096 four_k_pos,
        (send (mkTextRequest to_ c)).ok = true
    · exact hall
    · exfalso
      cases hd : (splitMessage text 4096 four_k_pos).dropWhile
          (fun c => (send (mkTextRequest to_ c)).ok) with
      | nil =>
        rw [List.dropWhile_eq_nil_iff] at hd
        exact hall hd
      | cons c post =>
        have hdecomp : splitMessage text 4096 four_k_pos =
            (splitMessage text 4096 four_k_pos).takeWhile
              (fun c => (send (mkTextRequest to_ c)).ok) ++ c :: post := by
          rw [← hd, List.takeWhile_append_dropWhile]
        have hcfalse := dropWhile_head_false
          (fun c => (send (mkTextRequest to_ c)).ok) _ c post hd
        have hpre : ∀ x ∈ (splitMessage text 4096 four_k_pos).takeWhile
            (fun c => (send (mkTextRequest to_ c)).ok),
            (send (mkTextRequest to_ x)).ok = true := by
          intro x hx
          have hx2 := List.mem_takeWhile_imp hx
          exact hx2
        have hres := sendTextGo_first_fail send to_ _ c post
          (⟨false, none, some "No chunks"⟩ : SendResult) hpre hcfalse
        rw [hsend, hdecomp, hres] at hok2
        have hcf : (send (mkTextRequest to_ c)).ok = false := hcfalse
        exact absurd (show (send (mkTextRequest to_ c)).ok = true from hok2)
          (by simp [hcf])
  · intro hall
    rw [hsend, sendTextGo_all_ok send to_ _ _ hall]
    cases hlast : (splitMessage text 4096 four_k_pos).getLast? with
    | none =>
      exact absurd (List.getLast?_eq_none_iff.mp hlast)
        (splitMessage_ne_nil text 4096 four_k_pos)
    | some last =>
      simp only [Option.map_some', Option.getD_some]
      obtain ⟨hne2, heq⟩ := List.mem_getLast?_eq_getLast (Option.mem_def.mpr hlast)
      exact hall last (heq ▸ List.getLast_mem hne2)

/-- Oracle that accepts every request, for the witness. -/
def sendOk : SendTextRequest → SendResult := fun _ => ⟨true, some "wamid.1", none⟩

/-- C6 witness: a short text is sent as exactly one request, and the overall
result is `ok` because that single send succeeded. -/
theorem sendText_chunking_witness :
    (sendText sendOk "393491234567" "Hello bot!".toList).1 =
      [mkTextRequest "393491234567" "Hello bot!".toList]
    ∧ (sendText sendOk "393491234567" "Hello bot!".toList).2.ok = true := by
  have h := sendText_chunking sendOk "393491234567" "Hello bot!".toList
  exact ⟨h.1 (by decide), h.2.2.2.2.mpr (by decide)⟩

/-- C10: `splitMessage` never returns an empty chunk list (the empty text
yields the single chunk `""`), so the send loop always issues at least one
request and `sendText`'s result always comes from an actual send — the
initial `{ ok := false, error := "No chunks" }` placeholder is unreachable. -/
theorem splitMessage_sendText_nonempty (send : SendTextRequest → SendResult)
    (to_ : String) (text : List Char) :
    splitMessage text 4096 four_k_pos ≠ []
    ∧ (sendText send to_ text).1 ≠ []
    ∧ ∃ c ∈ splitMessage text 4096 four_k_pos,
        (sendText send to_ text).2 = send (mkTextRequest to_ c) := by
  have hne := splitMessage_ne_nil text 4096 four_k_pos
  exact ⟨hne, sendTextGo_requests_ne_nil send to_ _ _ hne,
    sendTextGo_result_mem send to_ _ _ hne⟩
